import Mathlib

/-!
Shallow embedding of the session event bridge of the voice-chat app:
the log-reduction effect of `VoiceChatApp` (conversation derivation,
function-call deduplication and dispatch), the `sendToBridge` relay helper,
and the raw `/command` fetch used for `send_message`.

Conventions: JS timestamps (`log.date.getTime()`) are `Nat` milliseconds;
JS objects used as string maps are ordered association lists
`List (String × String)`; a possibly-absent field is an `Option`.
The module-level `handledCalls` ref is threaded explicitly as a
`List String` used as a set.  The source's role literal `"model"` is the
spec's role `assistant`.
-/

/-- Role of a conversation entry; the source uses the literals
`"user"` and `"model"` (the latter is the spec's `assistant`). -/
inductive Role where
  | user
  | model
deriving DecidableEq, Repr

/-- One derived conversation entry: `{ role, text, time }` where `time`
is the originating event's timestamp in milliseconds. -/
structure Entry where
  role : Role
  text : String
  time : Nat
deriving DecidableEq, Repr

/-- A structured function call carried by a server part:
`{ name, args }`; `args` may be absent (`fc.args` undefined in JS). -/
structure FunctionCall where
  name : String
  args : Option (List (String × String))
deriving DecidableEq, Repr

/-- One element of `sc.modelTurn.parts`: optional `text` and optional
`functionCall`. -/
structure ServerPart where
  text : Option String
  functionCall : Option FunctionCall
deriving DecidableEq, Repr

/-- One element of `log.message.turns`: optional `text`. -/
structure UserPart where
  text : Option String
deriving DecidableEq, Repr

/-- Shape of `log.message` as the reducer inspects it: either not an
object (skipped), or an object where the `turns` field, the presence of
the `turnComplete` key, and `serverContent?.modelTurn?.parts` are each
modelled by an option (outer `some` on `serverParts` means the
`serverContent` key is present, the inner option is whether
`sc?.modelTurn?.parts` is non-null). -/
inductive LogMessage where
  | nonObject
  | obj (turns : Option (List UserPart)) (hasTurnComplete : Bool)
      (serverParts : Option (Option (List ServerPart)))
deriving DecidableEq, Repr

/-- One raw event of the logger store: `{ date, message }`. -/
structure RawEvent where
  date : Nat
  message : LogMessage
deriving DecidableEq, Repr

/-- Escape of one character inside a JSON string literal, as
`JSON.stringify` performs it for the characters that can occur here. -/
def jsonEscapeChar (c : Char) : List Char :=
  if c = '\\' then ['\\', '\\']
  else if c = '\"' then ['\\', '\"']
  else if c = '\n' then ['\\', 'n']
  else [c]

/-- Escape of a whole string for inclusion in a JSON string literal. -/
def jsonEscape (s : String) : String :=
  ⟨(s.data.map jsonEscapeChar).flatten⟩

/-- Rendering of one `"key":"value"` member of a JSON object. -/
def jsonMember (kv : String × String) : String :=
  "\"" ++ jsonEscape kv.1 ++ "\":\"" ++ jsonEscape kv.2 ++ "\""

/-- `JSON.stringify` of a string-to-string object, preserving the
insertion order of its properties. -/
def jsonStringify (m : List (String × String)) : String :=
  "\x7b" ++ String.intercalate "," (m.map jsonMember) ++ "\x7d"

/-- `JSON.stringify(fc.args)` as interpolated into a template literal:
an absent `args` stringifies to `undefined`, which interpolates as the
text `undefined`. -/
def stringifyArgsOpt : Option (List (String × String)) → String
  | none => "undefined"
  | some m => jsonStringify m

/-- The idempotency key of a function call inside an event with
timestamp `t` ms, from the source line
`const callId = fc.name + "-" + JSON.stringify(fc.args) + "-" + log.date.getTime()`
(template-literal form). -/
def callId (fc : FunctionCall) (t : Nat) : String :=
  fc.name ++ "-" ++ stringifyArgsOpt fc.args ++ "-" ++ Nat.repr t

/-- Text of the synthesized dispatch-announcement entry. -/
def announceText (fc : FunctionCall) : String :=
  "🔧 Sending to OpenClaw: " ++ fc.name ++ "(" ++ jsonStringify (fc.args.getD []) ++ ")"

/-- The two relay invocation shapes: the `/command` fetch used for
`send_message` (carrying `params.message`, possibly absent) and the
generic `sendToBridge` `/action` call. -/
inductive BridgeCall where
  | command (message : Option String)
  | action (name : String) (params : List (String × String))
deriving DecidableEq, Repr

/-- One recorded relay invocation: the idempotency key it was issued
under and the call that was made. -/
structure Dispatch where
  id : String
  call : BridgeCall
deriving DecidableEq, Repr

/-- Lookup of `m[k]` in a JS object modelled as an association list. -/
def lookupArg (m : List (String × String)) (k : String) : Option String :=
  (m.find? (fun kv => kv.1 = k)).map (fun kv => kv.2)

/-- Handling of one `part.functionCall` in the reducer: compute the key,
skip if already handled, otherwise record the key, push the announcement
entry, and fire the relay call chosen by the `send_message` special
case. -/
def handleCall (fc : FunctionCall) (t : Nat) (handled : List String) :
    List Entry × List Dispatch × List String :=
  let id := callId fc t
  if id ∈ handled then ([], [], handled)
  else
    let handled' := id :: handled
    let entry : Entry := ⟨Role.model, announceText fc, t⟩
    let action := if fc.name = "send_message" then "send_message" else fc.name
    let params := fc.args.getD []
    if action = "send_message" then
      ([entry], [⟨id, BridgeCall.command (lookupArg params "message")⟩], handled')
    else
      ([entry], [⟨id, BridgeCall.action action params⟩], handled')

/-- The JS guard `part.text && part.text.trim() && part.text !== "\n"`:
the field is present, a non-empty string (JS truthiness), its `trim()`
is non-empty — i.e. some character is not whitespace — and it is not a
bare newline. -/
def jsTruthyText : Option String → Bool
  | none => false
  | some s => (s != "") && s.data.any (fun c => !c.isWhitespace) && (s != "\n")

/-- The text entry (if any) produced for a server part's `text` field. -/
def serverTextEntries (t? : Option String) (t : Nat) : List Entry :=
  match t? with
  | some s => if jsTruthyText (some s) then [⟨Role.model, s, t⟩] else []
  | none => []

/-- The text entry (if any) produced for a user part, under the same
guard as `serverTextEntries` but with role `user`. -/
def userPartEntries (p : UserPart) (t : Nat) : List Entry :=
  match p.text with
  | some s => if jsTruthyText (some s) then [⟨Role.user, s, t⟩] else []
  | none => []

/-- Processing of one server part: its text entry first, then its
function call (when present). -/
def processServerPart (p : ServerPart) (t : Nat) (handled : List String) :
    List Entry × List Dispatch × List String :=
  let textEntries := serverTextEntries p.text t
  match p.functionCall with
  | none => (textEntries, [], handled)
  | some fc =>
    let r := handleCall fc t handled
    (textEntries ++ r.1, r.2.1, r.2.2)

/-- Left-to-right processing of `sc.modelTurn.parts`, threading the
handled-call set. -/
def processServerParts : List ServerPart → Nat → List String →
    List Entry × List Dispatch × List String
  | [], _, handled => ([], [], handled)
  | p :: ps, t, handled =>
    let r := processServerPart p t handled
    let r2 := processServerParts ps t r.2.2
    (r.1 ++ r2.1, r.2.1 ++ r2.2.1, r2.2.2)

/-- Processing of one raw event: the user branch (requires both `turns`
and `turnComplete` keys) runs first, then the server branch (requires a
present `serverContent` key with non-null `modelTurn.parts`). -/
def processEvent (ev : RawEvent) (handled : List String) :
    List Entry × List Dispatch × List String :=
  match ev.message with
  | LogMessage.nonObject => ([], [], handled)
  | LogMessage.obj turns hasTC serverParts =>
    let userEntries :=
      match turns, hasTC with
      | some parts, true => (parts.map (fun p => userPartEntries p ev.date)).flatten
      | _, _ => []
    match serverParts with
    | some (some parts) =>
      let r := processServerParts parts ev.date handled
      (userEntries ++ r.1, r.2.1, r.2.2)
    | _ => (userEntries, [], handled)

/-- One pass of the log-reduction effect over the full log, threading
the `handledCalls` set: returns the derived conversation, the relay
invocations fired during this pass, and the final handled set. -/
def processLog : List RawEvent → List String →
    List Entry × List Dispatch × List String
  | [], handled => ([], [], handled)
  | ev :: rest, handled =>
    let r := processEvent ev handled
    let r2 := processLog rest r.2.2
    (r.1 ++ r2.1, r.2.1 ++ r2.2.1, r2.2.2)

/-- The idempotency keys of the function calls carried by one server
part at event timestamp `t`. -/
def partCallIds (p : ServerPart) (t : Nat) : List String :=
  match p.functionCall with
  | some fc => [callId fc t]
  | none => []

/-- The idempotency keys of the function calls carried by one raw event
(only the server branch carries calls). -/
def eventCallIds (ev : RawEvent) : List String :=
  match ev.message with
  | LogMessage.nonObject => []
  | LogMessage.obj _ _ serverParts =>
    match serverParts with
    | some (some parts) => (parts.map (fun p => partCallIds p ev.date)).flatten
    | _ => []

/-- All idempotency keys occurring in a log. -/
def logCallIds (log : List RawEvent) : List String :=
  (log.map eventCallIds).flatten

/-- The conversation derived by the first run of the effect, starting
from an empty `handledCalls` set. -/
def firstRun (log : List RawEvent) : List Entry :=
  (processLog log []).1

/-- The `handledCalls` set left behind by the first run (the ref
persists across runs of the effect). -/
def handledAfter (log : List RawEvent) : List String :=
  (processLog log []).2.2

/-- The conversation derived by a second run of the effect over the
same unchanged log, observing the persistent `handledCalls` ref. -/
def secondRun (log : List RawEvent) : List Entry :=
  (processLog log (handledAfter log)).1

/-- The per-event entry chunks of one pass: chunk `i` holds exactly the
entries contributed by the event at log position `i`. -/
def logChunks : List RawEvent → List String → List (List Entry)
  | [], _ => []
  | ev :: rest, handled =>
    let r := processEvent ev handled
    r.1 :: logChunks rest r.2.2

/-- Behaviour of the relay endpoint for one request, as observed by the
client: either the fetch/JSON-parse chain throws (transport error or
malformed body), or it yields a parsed object with optional `status`
and `message` string fields. -/
inductive TransportOutcome where
  | throws (err : String)
  | responds (status : Option String) (message : Option String)
deriving DecidableEq, Repr

/-- Result object of `sendToBridge`: `{ success, message }`. -/
structure BridgeResult where
  success : Bool
  message : String
deriving DecidableEq, Repr

/-- JS `x || d` on an optional string field: the default is taken when
the field is absent or the empty string (falsy). -/
def jsOrDefault (s : Option String) (d : String) : String :=
  match s with
  | some t => if t = "" then d else t
  | none => d

/-- The `sendToBridge` helper: awaits the fetch and `resp.json()`, then
returns `{ success: data.status === "sent", message: data.message || "sent" }`;
any thrown error is caught and becomes
`{ success: false, message: "Bridge error: " + e }`. -/
def sendToBridge (outcome : TransportOutcome) : BridgeResult :=
  match outcome with
  | TransportOutcome.throws e => ⟨false, "Bridge error: " ++ e⟩
  | TransportOutcome.responds status message =>
    ⟨status == some "sent", jsOrDefault message "sent"⟩

/-- What the `send_message` branch observes of its fetch: the promise
chain is `fetch(...).catch(console.error)`, so a rejection is logged
and a response is ignored (its body is never parsed). -/
inductive CommandObservation where
  | quiet
  | loggedError (err : String)
deriving DecidableEq, Repr

/-- Observable effect of the `/command` fetch chain for one transport
outcome. -/
def commandDispatch (outcome : TransportOutcome) : CommandObservation :=
  match outcome with
  | TransportOutcome.throws e => CommandObservation.loggedError e
  | TransportOutcome.responds _ _ => CommandObservation.quiet

/-- The value the `/command` branch delivers back to the dispatch path:
none — the promise is discarded (`fetch(...).catch(console.error)` is a
statement), so no `{ success, message }` result exists on this path. -/
def commandResult (_outcome : TransportOutcome) : Option BridgeResult :=
  none

/-- Result recorded for one dispatch under a given relay behaviour `tr`:
the action path yields the `sendToBridge` result (itself discarded by
the caller, but computed), the command path yields none. -/
def dispatchResult (tr : BridgeCall → TransportOutcome) (d : Dispatch) :
    Option BridgeResult :=
  match d.call with
  | BridgeCall.action _ _ => some (sendToBridge (tr d.call))
  | BridgeCall.command _ => none

/-- One pass of the effect together with the (asynchronous, detached)
relay outcomes of the calls it fired: the entries and the handled set
are those of `processLog`; each fired dispatch is paired with its
outcome under the ambient relay behaviour `tr`. -/
def runSystem (tr : BridgeCall → TransportOutcome) (log : List RawEvent)
    (handled : List String) :
    List Entry × List (Dispatch × Option BridgeResult) × List String :=
  let r := processLog log handled
  (r.1, r.2.1.map (fun d => (d, dispatchResult tr d)), r.2.2)

/-- A relay behaviour in which every request's transport throws. -/
def failingTransport : BridgeCall → TransportOutcome :=
  fun _ => TransportOutcome.throws "NetworkError"

/-- The configured shared secret (source default). -/
def BRIDGE_SECRET : String := "voice-bridge-2026"

/-- Rendering of the `/command` body `JSON.stringify({ secret, command })`:
`command` is `params.message` and the key is omitted when that argument
is absent (`undefined`). -/
def commandBody (message : Option String) : String :=
  match message with
  | some m =>
    "\x7b" ++ jsonMember ("secret", BRIDGE_SECRET) ++ "," ++
      jsonMember ("command", m) ++ "\x7d"
  | none => "\x7b" ++ jsonMember ("secret", BRIDGE_SECRET) ++ "\x7d"

/-- Rendering of `JSON.stringify({ secret, action, params })` for the
`/action` body. -/
def actionBody (action : String) (params : List (String × String)) : String :=
  "\x7b" ++ jsonMember ("secret", BRIDGE_SECRET) ++ "," ++
    jsonMember ("action", action) ++ ",\"params\":" ++ jsonStringify params ++ "\x7d"

/-- The HTTP request (path relative to the bridge base URL, JSON body)
issued for one bridge call. -/
def requestOf (c : BridgeCall) : String × String :=
  match c with
  | BridgeCall.command message => ("/command", commandBody message)
  | BridgeCall.action name params => ("/action", actionBody name params)

/-- A single-part server event carrying only a function call. -/
def mkCallEvent (name : String) (args : Option (List (String × String)))
    (t : Nat) : RawEvent :=
  ⟨t, LogMessage.obj none false (some (some [⟨none, some ⟨name, args⟩⟩]))⟩

example :
    processLog [⟨5, LogMessage.obj (some [⟨some "hello"⟩]) true none⟩] [] =
      ([⟨Role.user, "hello", 5⟩], [], []) := by decide

example : jsTruthyText (some "\n") = false := by decide

example : jsTruthyText (some "  hi ") = true := by decide

/-! Decimal rendering of `Nat` is injective; needed because the
idempotency key embeds the event timestamp via string interpolation. -/

lemma toDigitsCore_acc (fuel : Nat) : ∀ (n : Nat) (ds : List Char), n < fuel →
    Nat.toDigitsCore 10 fuel n ds = Nat.toDigitsCore 10 fuel n [] ++ ds := by
  induction fuel with
  | zero => intro n ds h; omega
  | succ f ih =>
    intro n ds _
    by_cases h0 : n / 10 = 0
    · simp [Nat.toDigitsCore, h0]
    · have hn : 10 ≤ n := by
        rcases Nat.lt_or_ge n 10 with h | h
        · exact absurd (Nat.div_eq_of_lt h) h0
        · exact h
      have hlt : n / 10 < f := by
        have h1 : n / 10 < n := Nat.div_lt_self (by omega) (by omega)
        omega
      simp only [Nat.toDigitsCore, h0, if_false]
      rw [ih (n / 10) (Nat.digitChar (n % 10) :: ds) hlt,
        ih (n / 10) [Nat.digitChar (n % 10)] hlt]
      simp

lemma toDigitsCore_fuel (f1 : Nat) : ∀ (n f2 : Nat), n < f1 → n < f2 →
    Nat.toDigitsCore 10 f1 n [] = Nat.toDigitsCore 10 f2 n [] := by
  induction f1 with
  | zero => intro n f2 h1 _; omega
  | succ g1 ih =>
    intro n f2 h1 h2
    cases f2 with
    | zero => omega
    | succ g2 =>
      by_cases h0 : n / 10 = 0
      · simp [Nat.toDigitsCore, h0]
      · have hn : 10 ≤ n := by
          rcases Nat.lt_or_ge n 10 with h | h
          · exact absurd (Nat.div_eq_of_lt h) h0
          · exact h
        have hd : n / 10 < n := Nat.div_lt_self (by omega) (by omega)
        simp only [Nat.toDigitsCore, h0, if_false]
        rw [toDigitsCore_acc g1 (n / 10) _ (by omega),
          toDigitsCore_acc g2 (n / 10) _ (by omega),
          ih (n / 10) g2 (by omega) (by omega)]

/-- Value of a most-significant-first decimal digit string. -/
def digitsVal (cs : List Char) : Nat :=
  cs.foldl (fun a c => 10 * a + (c.toNat - 48)) 0

lemma digitChar_toNat : ∀ m, m < 10 → (Nat.digitChar m).toNat = 48 + m := by
  decide

lemma toDigits_lt10 (n : Nat) (h : n < 10) :
    Nat.toDigits 10 n = [Nat.digitChar n] := by
  have h0 : n / 10 = 0 := Nat.div_eq_of_lt h
  have hm : n % 10 = n := Nat.mod_eq_of_lt h
  simp [Nat.toDigits, Nat.toDigitsCore, h0, hm]

lemma toDigits_ge10 (n : Nat) (h : 10 ≤ n) :
    Nat.toDigits 10 n = Nat.toDigits 10 (n / 10) ++ [Nat.digitChar (n % 10)] := by
  have h0 : n / 10 ≠ 0 := by
    intro h'
    have := Nat.div_eq_of_lt (show n < 10 by omega)
    omega
  have hd : n / 10 < n := Nat.div_lt_self (by omega) (by omega)
  show Nat.toDigitsCore 10 (n + 1) n [] = _
  simp only [Nat.toDigitsCore, h0, if_false]
  rw [toDigitsCore_acc n (n / 10) _ (by omega)]
  unfold Nat.toDigits
  rw [toDigitsCore_fuel n (n / 10) (n / 10 + 1) (by omega) (by omega)]

lemma digitsVal_append (cs : List Char) (c : Char) :
    digitsVal (cs ++ [c]) = 10 * digitsVal cs + (c.toNat - 48) := by
  simp [digitsVal, List.foldl_append]

lemma digitsVal_toDigits : ∀ n, digitsVal (Nat.toDigits 10 n) = n := by
  intro n
  induction n using Nat.strong_induction_on with
  | _ n ih =>
    rcases Nat.lt_or_ge n 10 with h | h
    · rw [toDigits_lt10 n h]
      simp [digitsVal, digitChar_toNat n h]
    · have hd : n / 10 < n := Nat.div_lt_self (by omega) (by omega)
      rw [toDigits_ge10 n h, digitsVal_append, ih (n / 10) hd,
        digitChar_toNat (n % 10) (Nat.mod_lt n (by omega))]
      omega

lemma natRepr_injective {m n : Nat} (h : Nat.repr m = Nat.repr n) : m = n := by
  have hd : Nat.toDigits 10 m = Nat.toDigits 10 n := by
    have := congrArg String.data h
    simpa [Nat.repr, List.asString] using this
  calc m = digitsVal (Nat.toDigits 10 m) := (digitsVal_toDigits m).symm
    _ = digitsVal (Nat.toDigits 10 n) := by rw [hd]
    _ = n := digitsVal_toDigits n

lemma string_append_cancel_left {p s1 s2 : String} (h : p ++ s1 = p ++ s2) :
    s1 = s2 := by
  have hd := congrArg String.data h
  simp only [String.data_append] at hd
  exact String.ext (List.append_cancel_left hd)

lemma callId_timestamp_ne (fc : FunctionCall) {t1 t2 : Nat} (h : t1 ≠ t2) :
    callId fc t1 ≠ callId fc t2 := by
  intro he
  exact h (natRepr_injective (string_append_cancel_left he))

/-! Counting relay invocations per idempotency key, and the evolution
of the handled-call set, across one pass of the reducer. -/

/-- Number of relay invocations issued under a given idempotency key. -/
def countId (id : String) : List Dispatch → Nat
  | [] => 0
  | d :: ds => (if d.id = id then 1 else 0) + countId id ds

lemma countId_append (id : String) (a b : List Dispatch) :
    countId id (a ++ b) = countId id a + countId id b := by
  induction a with
  | nil => simp [countId]
  | cons d ds ih => simp [countId, ih]; omega

lemma handleCall_count (fc : FunctionCall) (t : Nat) (handled : List String)
    (id : String) :
    countId id (handleCall fc t handled).2.1 =
      if id = callId fc t ∧ id ∉ handled then 1 else 0 := by
  unfold handleCall
  by_cases hmem : callId fc t ∈ handled
  · simp only [hmem, if_pos]
    rcases eq_or_ne id (callId fc t) with rfl | hne
    · simp [countId, hmem]
    · simp [countId, hne]
  · rcases eq_or_ne id (callId fc t) with rfl | hne
    · by_cases hsm : fc.name = "send_message" <;> simp [hmem, hsm, countId]
    · by_cases hsm : fc.name = "send_message" <;>
        simp [hmem, hsm, countId, hne, Ne.symm hne]

lemma handleCall_mem (fc : FunctionCall) (t : Nat) (handled : List String)
    (x : String) :
    x ∈ (handleCall fc t handled).2.2 ↔ x ∈ handled ∨ x = callId fc t := by
  unfold handleCall
  by_cases hmem : callId fc t ∈ handled
  · simp only [hmem, if_pos]
    constructor
    · exact fun h => Or.inl h
    · rintro (h | rfl)
      · exact h
      · exact hmem
  · by_cases hsm : fc.name = "send_message" <;>
      simp [hmem, hsm, List.mem_cons, or_comm]

lemma processServerPart_count (p : ServerPart) (t : Nat)
    (handled : List String) (id : String) :
    countId id (processServerPart p t handled).2.1 =
      if id ∈ partCallIds p t ∧ id ∉ handled then 1 else 0 := by
  unfold processServerPart partCallIds
  cases p.functionCall with
  | none => simp [countId]
  | some fc =>
    simp only [List.mem_singleton]
    exact handleCall_count fc t handled id

lemma processServerPart_mem (p : ServerPart) (t : Nat)
    (handled : List String) (x : String) :
    x ∈ (processServerPart p t handled).2.2 ↔
      x ∈ handled ∨ x ∈ partCallIds p t := by
  unfold processServerPart partCallIds
  cases p.functionCall with
  | none => simp
  | some fc =>
    simp only [List.mem_singleton]
    exact handleCall_mem fc t handled x

lemma processServerParts_count (ps : List ServerPart) (t : Nat) :
    ∀ (handled : List String) (id : String),
    countId id (processServerParts ps t handled).2.1 =
      if id ∈ (ps.map (fun p => partCallIds p t)).flatten ∧ id ∉ handled
        then 1 else 0 := by
  induction ps with
  | nil => intro handled id; simp [processServerParts, countId]
  | cons p ps ih =>
    intro handled id
    unfold processServerParts
    rw [countId_append, processServerPart_count, ih]
    by_cases h1 : id ∈ partCallIds p t <;>
      by_cases h2 : id ∈ handled <;>
        by_cases h3 : id ∈ (ps.map (fun p => partCallIds p t)).flatten <;>
          simp [h1, h2, h3, processServerPart_mem]

lemma processServerParts_mem (ps : List ServerPart) (t : Nat) :
    ∀ (handled : List String) (x : String),
    x ∈ (processServerParts ps t handled).2.2 ↔
      x ∈ handled ∨ x ∈ (ps.map (fun p => partCallIds p t)).flatten := by
  induction ps with
  | nil => intro handled x; simp [processServerParts]
  | cons p ps ih =>
    intro handled x
    unfold processServerParts
    rw [ih, processServerPart_mem]
    simp [or_assoc]

lemma processEvent_count (ev : RawEvent) (handled : List String)
    (id : String) :
    countId id (processEvent ev handled).2.1 =
      if id ∈ eventCallIds ev ∧ id ∉ handled then 1 else 0 := by
  unfold processEvent eventCallIds
  cases ev.message with
  | nonObject => simp [countId]
  | obj turns hasTC serverParts =>
    match serverParts with
    | some (some parts) => exact processServerParts_count parts ev.date handled id
    | some none => simp [countId]
    | none => simp [countId]

lemma processEvent_mem (ev : RawEvent) (handled : List String) (x : String) :
    x ∈ (processEvent ev handled).2.2 ↔
      x ∈ handled ∨ x ∈ eventCallIds ev := by
  unfold processEvent eventCallIds
  cases ev.message with
  | nonObject => simp
  | obj turns hasTC serverParts =>
    match serverParts with
    | some (some parts) => exact processServerParts_mem parts ev.date handled x
    | some none => simp
    | none => simp

lemma processLog_count (log : List RawEvent) :
    ∀ (handled : List String) (id : String),
    countId id (processLog log handled).2.1 =
      if id ∈ logCallIds log ∧ id ∉ handled then 1 else 0 := by
  induction log with
  | nil => intro handled id; simp [processLog, countId, logCallIds]
  | cons ev rest ih =>
    intro handled id
    unfold processLog
    rw [countId_append, processEvent_count, ih]
    have hlogids : logCallIds (ev :: rest) = eventCallIds ev ++ logCallIds rest := by
      simp [logCallIds]
    rw [hlogids]
    by_cases h1 : id ∈ eventCallIds ev <;>
      by_cases h2 : id ∈ handled <;>
        by_cases h3 : id ∈ logCallIds rest <;>
          simp [h1, h2, h3, processEvent_mem]

lemma processLog_mem (log : List RawEvent) :
    ∀ (handled : List String) (x : String),
    x ∈ (processLog log handled).2.2 ↔ x ∈ handled ∨ x ∈ logCallIds log := by
  induction log with
  | nil => intro handled x; simp [processLog, logCallIds]
  | cons ev rest ih =>
    intro handled x
    unfold processLog
    rw [ih, processEvent_mem]
    simp [logCallIds, or_assoc]

/-! Decomposition of one pass's conversation into per-event chunks. -/

lemma processLog_eq_chunks (log : List RawEvent) :
    ∀ handled : List String,
    (processLog log handled).1 = (logChunks log handled).flatten := by
  induction log with
  | nil => intro handled; simp [processLog, logChunks]
  | cons ev rest ih =>
    intro handled
    unfold processLog logChunks
    simp [ih]

lemma logChunks_length (log : List RawEvent) :
    ∀ handled : List String, (logChunks log handled).length = log.length := by
  induction log with
  | nil => intro handled; simp [logChunks]
  | cons ev rest ih =>
    intro handled
    unfold logChunks
    simp [ih]

lemma flatten_split {α : Type} (cs : List (List α)) :
    ∀ j : Nat, j < cs.length →
    cs.flatten = (cs.take j).flatten ++ cs.getD j [] ++ (cs.drop (j + 1)).flatten := by
  induction cs with
  | nil => intro j h; simp at h
  | cons c cs ih =>
    intro j h
    cases j with
    | zero => simp [List.getD]
    | succ j' =>
      have h' : j' < cs.length := by simpa using h
      have := ih j' h'
      simp only [List.flatten_cons, List.take_succ_cons, List.drop_succ_cons]
      rw [this]
      simp [List.getD, List.append_assoc]

lemma getD_take {α : Type} (cs : List (List α)) :
    ∀ i j : Nat, i < j → (cs.take j).getD i [] = cs.getD i [] := by
  induction cs with
  | nil => intro i j _; simp
  | cons c cs ih =>
    intro i j hij
    cases j with
    | zero => omega
    | succ j' =>
      cases i with
      | zero => simp [List.getD]
      | succ i' =>
        simp only [List.take_succ_cons, List.getD_cons_succ]
        exact ih i' j' (by omega)

/-! Concrete scenario logs used by the claims. -/

/-- The function call of spec Scenario B. -/
def scenarioB_fc : FunctionCall := ⟨"create_task", some [("title", "Buy milk")]⟩

/-- Scenario B log: two identical server events carrying the same
function call with the same timestamp. -/
def scenarioB_log : List RawEvent :=
  [mkCallEvent "create_task" (some [("title", "Buy milk")]) 1000,
   mkCallEvent "create_task" (some [("title", "Buy milk")]) 1000]

/-- A small log with one user event and one server text event. -/
def demoLog : List RawEvent :=
  [⟨1, LogMessage.obj (some [⟨some "hello"⟩]) true none⟩,
   ⟨2, LogMessage.obj none false (some (some [⟨some "hi there", none⟩]))⟩]

/-- A log with a dispatched call followed by a later text event. -/
def c4Log : List RawEvent :=
  [mkCallEvent "create_task" (some [("title", "Buy milk")]) 1,
   ⟨2, LogMessage.obj none false (some (some [⟨some "done", none⟩]))⟩]

/-- A log whose only content is one function call. -/
def c2Log : List RawEvent :=
  [mkCallEvent "create_task" (some [("title", "Buy milk")]) 1000]

/-- C1: in any log, each function-call identity (name, canonical
argument serialization, timestamp) is forwarded to the relay exactly
once per pass from a fresh handled set, however often it recurs; in
particular Scenario B's duplicated `create_task` call produces exactly
the single relay invocation `dispatchAction ("create_task",
title = Buy milk)`. -/
theorem dispatch_at_most_once :
    (∀ (log : List RawEvent) (id : String), id ∈ logCallIds log →
      countId id (processLog log []).2.1 = 1) ∧
    (processLog scenarioB_log []).2.1 =
      [⟨callId scenarioB_fc 1000,
        BridgeCall.action "create_task" [("title", "Buy milk")]⟩] := by
  constructor
  · intro log id hid
    rw [processLog_count]
    simp [hid]
  · decide

/-- Witness for C1 at Scenario B's log and key. -/
theorem dispatch_at_most_once_witness :
    countId (callId scenarioB_fc 1000) (processLog scenarioB_log []).2.1 = 1 :=
  dispatch_at_most_once.1 scenarioB_log (callId scenarioB_fc 1000) (by decide)

/-- C7: entries derived from the event at log position `i` all precede
entries derived from the event at position `j` whenever `i < j`: the
conversation of one pass decomposes around the two per-event chunks in
position order. -/
theorem entries_ordered_by_event (log : List RawEvent) (handled : List String)
    (i j : Nat) (hij : i < j) (hj : j < log.length) :
    ∃ pre mid post, (processLog log handled).1 =
      pre ++ (logChunks log handled).getD i [] ++ mid ++
        (logChunks log handled).getD j [] ++ post := by
  have hlen : (logChunks log handled).length = log.length :=
    logChunks_length log handled
  have hjc : j < (logChunks log handled).length := by omega
  have hic : i < ((logChunks log handled).take j).length := by
    rw [List.length_take]
    omega
  refine ⟨(((logChunks log handled).take j).take i).flatten,
    (((logChunks log handled).take j).drop (i + 1)).flatten,
    ((logChunks log handled).drop (j + 1)).flatten, ?_⟩
  rw [processLog_eq_chunks log handled,
    flatten_split (logChunks log handled) j hjc,
    flatten_split ((logChunks log handled).take j) i hic,
    getD_take (logChunks log handled) i j hij]

/-- Witness for C7 on a two-event log. -/
theorem entries_ordered_by_event_witness :
    ∃ pre mid post, (processLog demoLog []).1 =
      pre ++ (logChunks demoLog []).getD 0 [] ++ mid ++
        (logChunks demoLog []).getD 1 [] ++ post :=
  entries_ordered_by_event demoLog [] 0 1 (by decide) (by decide)

/-- C4: the derived conversation is independent of the relay's
behaviour (the dispatch is fire-and-forget, every failure is caught),
so a failing relay invocation leaves the announcement entry in place
and every later event still produces its entries; concretely, under an
always-throwing transport the two-event log still derives both the
announcement and the later text entry, while the failure is recorded as
`success = false`. -/
theorem relay_failure_isolated :
    (∀ (tr1 tr2 : BridgeCall → TransportOutcome) (log : List RawEvent)
        (handled : List String),
      (runSystem tr1 log handled).1 = (runSystem tr2 log handled).1) ∧
    (∀ (tr : BridgeCall → TransportOutcome) (log : List RawEvent)
        (handled : List String),
      (runSystem tr log handled).1 = (processLog log handled).1) ∧
    (runSystem failingTransport c4Log []).1 =
      [⟨Role.model, announceText ⟨"create_task", some [("title", "Buy milk")]⟩, 1⟩,
       ⟨Role.model, "done", 2⟩] ∧
    (runSystem failingTransport c4Log []).2.1 =
      [(⟨callId ⟨"create_task", some [("title", "Buy milk")]⟩ 1,
          BridgeCall.action "create_task" [("title", "Buy milk")]⟩,
        some ⟨false, "Bridge error: NetworkError"⟩)] := by
  exact ⟨fun tr1 tr2 log handled => rfl, fun tr log handled => rfl,
    by decide, by decide⟩

/-- C8: a handled idempotency key is never removed (the handled set of
a pass contains its input set), a key already handled triggers no
further relay invocation in any later pass, and the handled set does
not depend on relay outcomes — so a failed dispatch is not retried. -/
theorem handled_keys_permanent :
    (∀ (log : List RawEvent) (handled : List String) (x : String),
      x ∈ handled → x ∈ (processLog log handled).2.2) ∧
    (∀ (log : List RawEvent) (handled : List String) (id : String),
      id ∈ handled → countId id (processLog log handled).2.1 = 0) ∧
    (∀ (tr : BridgeCall → TransportOutcome) (log : List RawEvent)
        (handled : List String),
      (runSystem tr log handled).2.2 = (processLog log handled).2.2) := by
  refine ⟨?_, ?_, fun tr log handled => rfl⟩
  · intro log handled x hx
    rw [processLog_mem]
    exact Or.inl hx
  · intro log handled id hid
    rw [processLog_count]
    simp [hid]

/-- Witness for C8: a pre-handled key survives the pass and is not
redispatched. -/
theorem handled_keys_permanent_witness :
    "k" ∈ (processLog demoLog ["k"]).2.2 ∧
      countId "k" (processLog demoLog ["k"]).2.1 = 0 :=
  ⟨handled_keys_permanent.1 demoLog ["k"] "k" (by decide),
   handled_keys_permanent.2.1 demoLog ["k"] "k" (by decide)⟩

/-! Text-part filtering. -/

lemma jsTruthyText_eq_any (s : String) :
    jsTruthyText (some s) = s.data.any (fun c => !c.isWhitespace) := by
  unfold jsTruthyText
  by_cases hany : s.data.any (fun c => !c.isWhitespace) = true
  · have hne : s ≠ "" := by
      intro h
      subst h
      exact absurd hany (by decide)
    have hnn : s ≠ "\n" := by
      intro h
      subst h
      exact absurd hany (by decide)
    simp [hany, bne_iff_ne, hne, hnn]
  · simp only [Bool.not_eq_true] at hany
    simp [hany]

lemma any_not_of_all (l : List Char)
    (h : l.all (fun c => c.isWhitespace) = true) :
    l.any (fun c => !c.isWhitespace) = false := by
  induction l with
  | nil => rfl
  | cons c cs ih =>
    simp only [List.all_cons, Bool.and_eq_true] at h
    simp [List.any_cons, h.1, ih h.2]

/-- C6: a text part that is absent, or whose text is whitespace-only
(which covers the empty string and the bare newline), produces no
conversation entry; any other text part produces exactly one entry —
role `user` for user-turn parts, role `model` (the spec's `assistant`)
for server-turn parts — carrying the originating event's timestamp. -/
theorem text_part_filtering :
    (∀ t : Nat, userPartEntries ⟨none⟩ t = [] ∧ serverTextEntries none t = []) ∧
    (∀ (s : String) (t : Nat), s.data.all (fun c => c.isWhitespace) = true →
      userPartEntries ⟨some s⟩ t = [] ∧ serverTextEntries (some s) t = []) ∧
    (∀ (s : String) (t : Nat), s.data.any (fun c => !c.isWhitespace) = true →
      userPartEntries ⟨some s⟩ t = [⟨Role.user, s, t⟩] ∧
        serverTextEntries (some s) t = [⟨Role.model, s, t⟩]) := by
  refine ⟨fun t => ⟨rfl, rfl⟩, ?_, ?_⟩
  · intro s t hall
    have hany := any_not_of_all s.data hall
    constructor <;> simp [userPartEntries, serverTextEntries,
      jsTruthyText_eq_any, hany]
  · intro s t hany
    constructor <;> simp [userPartEntries, serverTextEntries,
      jsTruthyText_eq_any, hany]

/-- Witness for C6: the empty, whitespace-only, newline and contentful
cases evaluated concretely. -/
theorem text_part_filtering_witness :
    (userPartEntries ⟨some "  "⟩ 3 = [] ∧ serverTextEntries (some "  ") 3 = []) ∧
    (userPartEntries ⟨some "\n"⟩ 3 = [] ∧ serverTextEntries (some "\n") 3 = []) ∧
    (userPartEntries ⟨some "hello"⟩ 7 = [⟨Role.user, "hello", 7⟩] ∧
      serverTextEntries (some "hello") 7 = [⟨Role.model, "hello", 7⟩]) :=
  ⟨text_part_filtering.2.1 "  " 3 (by decide),
   text_part_filtering.2.1 "\n" 3 (by decide),
   text_part_filtering.2.2 "hello" 7 (by decide)⟩

/-- C10: a server part with contentful text and a not-yet-handled
function call contributes exactly two entries, the text entry first and
the dispatch announcement second, both with role `model` (the spec's
`assistant`) and the event's timestamp. -/
theorem text_then_announcement (s : String) (fc : FunctionCall) (t : Nat)
    (handled : List String)
    (hs : s.data.any (fun c => !c.isWhitespace) = true)
    (hmem : callId fc t ∉ handled) :
    (processServerPart ⟨some s, some fc⟩ t handled).1 =
      [⟨Role.model, s, t⟩, ⟨Role.model, announceText fc, t⟩] := by
  unfold processServerPart serverTextEntries handleCall
  by_cases hsm : fc.name = "send_message" <;>
    simp [jsTruthyText_eq_any, hs, hmem, hsm]

/-- Witness for C10 at a concrete part. -/
theorem text_then_announcement_witness :
    (processServerPart ⟨some "on it", some ⟨"run_batch", some []⟩⟩ 9 []).1 =
      [⟨Role.model, "on it", 9⟩,
       ⟨Role.model, announceText ⟨"run_batch", some []⟩, 9⟩] :=
  text_then_announcement "on it" ⟨"run_batch", some []⟩ 9 [] (by decide) (by decide)

/-- C5: a `send_message` call is dispatched as a `/command` request
whose body carries the call's `message` argument as `command`, and no
`/action` (`dispatchAction`) invocation is issued for it; a call with
any other name is dispatched as an `/action` request carrying the
function name as `action` and its arguments verbatim as `params`. -/
theorem send_message_routing :
    (∀ (args : Option (List (String × String))) (t : Nat) (handled : List String),
      callId ⟨"send_message", args⟩ t ∉ handled →
      (processLog [mkCallEvent "send_message" args t] handled).2.1 =
        [⟨callId ⟨"send_message", args⟩ t,
          BridgeCall.command (lookupArg (args.getD []) "message")⟩]) ∧
    (∀ (name : String) (args : Option (List (String × String))) (t : Nat)
        (handled : List String),
      name ≠ "send_message" → callId ⟨name, args⟩ t ∉ handled →
      (processLog [mkCallEvent name args t] handled).2.1 =
        [⟨callId ⟨name, args⟩ t, BridgeCall.action name (args.getD [])⟩]) ∧
    (∀ message, requestOf (BridgeCall.command message) =
      ("/command", commandBody message)) ∧
    (∀ name params, requestOf (BridgeCall.action name params) =
      ("/action", actionBody name params)) ∧
    lookupArg [("message", "status please")] "message" = some "status please" := by
  refine ⟨?_, ?_, fun message => rfl, fun name params => rfl, by decide⟩
  · intro args t handled hmem
    simp [processLog, processEvent, mkCallEvent, processServerParts,
      processServerPart, serverTextEntries, handleCall, hmem]
  · intro name args t handled hname hmem
    simp [processLog, processEvent, mkCallEvent, processServerParts,
      processServerPart, serverTextEntries, handleCall, hmem, hname]

/-- Witness for C5: Scenario D's `send_message` call and a generic
`create_task` call, dispatched from an empty handled set. -/
theorem send_message_routing_witness :
    (processLog [mkCallEvent "send_message" (some [("message", "status please")]) 4]
        []).2.1 =
      [⟨callId ⟨"send_message", some [("message", "status please")]⟩ 4,
        BridgeCall.command (some "status please")⟩] ∧
    (processLog [mkCallEvent "create_task" (some [("title", "Buy milk")]) 4]
        []).2.1 =
      [⟨callId ⟨"create_task", some [("title", "Buy milk")]⟩ 4,
        BridgeCall.action "create_task" [("title", "Buy milk")]⟩] := by
  constructor
  · have h := send_message_routing.1 (some [("message", "status please")]) 4 []
      (by decide)
    simpa using h
  · exact send_message_routing.2.1 "create_task"
      (some [("title", "Buy milk")]) 4 [] (by decide) (by decide)

/-- C9: the idempotency key is exactly the function name, the JSON
serialization of its arguments and the event timestamp joined with
`-`; the same call at a different timestamp is a new identity and is
dispatched again, and argument maps serialized in different property
orders are distinct identities, each dispatched. -/
theorem idempotency_key_shape :
    (∀ (fc : FunctionCall) (t : Nat),
      callId fc t = fc.name ++ "-" ++ stringifyArgsOpt fc.args ++ "-" ++ Nat.repr t) ∧
    (∀ (name : String) (args : Option (List (String × String))) (t1 t2 : Nat),
      t1 ≠ t2 →
      (processLog [mkCallEvent name args t1, mkCallEvent name args t2] []).2.1.length
        = 2) ∧
    callId ⟨"create_task", some [("a", "1"), ("b", "2")]⟩ 5 ≠
      callId ⟨"create_task", some [("b", "2"), ("a", "1")]⟩ 5 ∧
    (processLog [mkCallEvent "create_task" (some [("a", "1"), ("b", "2")]) 5,
        mkCallEvent "create_task" (some [("b", "2"), ("a", "1")]) 5] []).2.1.length
      = 2 := by
  refine ⟨fun fc t => rfl, ?_, by decide, by decide⟩
  intro name args t1 t2 ht
  have hne : callId ⟨name, args⟩ t2 ≠ callId ⟨name, args⟩ t1 :=
    Ne.symm (callId_timestamp_ne ⟨name, args⟩ ht)
  by_cases hsm : name = "send_message"
  · subst hsm
    simp [processLog, processEvent, mkCallEvent, processServerParts,
      processServerPart, serverTextEntries, handleCall, hne]
  · simp [processLog, processEvent, mkCallEvent, processServerParts,
      processServerPart, serverTextEntries, handleCall, hsm, hne]

/-- Witness for C9: same call, timestamps 1000 and 2000. -/
theorem idempotency_key_shape_witness :
    (processLog [mkCallEvent "create_task" (some [("title", "x")]) 1000,
        mkCallEvent "create_task" (some [("title", "x")]) 2000] []).2.1.length = 2 :=
  idempotency_key_shape.2.1 "create_task" (some [("title", "x")]) 1000 2000
    (by decide)

/-- C2 (violated by the code): the derivation is not idempotent, because
the announcement push sits inside the dedup guard and `handledCalls`
persists across runs of the effect — a second run over the same
unchanged one-call log yields an empty conversation, dropping the
dispatch-announcement entry the first run produced. -/
theorem rerun_drops_announcements :
    firstRun c2Log =
      [⟨Role.model, announceText ⟨"create_task", some [("title", "Buy milk")]⟩,
        1000⟩] ∧
    secondRun c2Log = [] ∧
    secondRun c2Log ≠ firstRun c2Log := by
  exact ⟨by decide, by decide, by decide⟩

/-- C3 counterexample: for the `send_message` path, a relay response
whose status is not `sent` yields no `success = false` result — the
fetch chain discards the response without parsing it, and its
observable effect is identical to that of a successful response. -/
theorem command_path_returns_no_result :
    commandResult (TransportOutcome.responds (some "error") (some "boom")) = none ∧
    commandDispatch (TransportOutcome.responds (some "error") (some "boom")) =
      commandDispatch (TransportOutcome.responds (some "sent") none) := by
  exact ⟨rfl, rfl⟩

/-- C3 amended: `dispatchAction` (`sendToBridge`) never throws past its
caller and fails closed — a thrown transport error or malformed body
yields `success = false` with a descriptive message, and `success` is
true exactly when the parsed status field equals `sent`; the
`send_message` command dispatch also never propagates a rejection (it
is caught and logged) but produces no success result and never
inspects the response. -/
theorem dispatch_fails_closed :
    (∀ e : String, sendToBridge (TransportOutcome.throws e) =
      ⟨false, "Bridge error: " ++ e⟩) ∧
    (∀ (status message : Option String),
      (sendToBridge (TransportOutcome.responds status message)).success = true ↔
        status = some "sent") ∧
    (∀ e : String, commandDispatch (TransportOutcome.throws e) =
      CommandObservation.loggedError e) ∧
    (∀ status message : Option String,
      commandDispatch (TransportOutcome.responds status message) =
        CommandObservation.quiet) ∧
    (∀ o : TransportOutcome, commandResult o = none) := by
  refine ⟨fun e => rfl, ?_, fun e => rfl, fun status message => rfl, fun o => rfl⟩
  intro status message
  simp [sendToBridge]
